import Mathlib

set_option maxRecDepth 40000

/-!
Shallow embedding of the SEO engine of `jobtimizer`
(`src/JobOptimizerPro/server/seo-service.ts`).

JavaScript strings are modelled as `List Char` (`JStr`); `.length` is the
character count (the repository handles BMP text, where UTF-16 code units
and characters coincide).  Optional / nullable string fields are modelled
as `JStr` with the empty list standing for `null`/`undefined`/`""` (all
three are falsy and behave identically in every operation of the source).
JavaScript numbers appearing here are integer-valued, so `Nat` is used;
the relevance weights `2.0` / `1.0` are represented by `2` / `1` (every
product `frequency * relevance` computed by the source is an exact small
integer, so the float arithmetic is faithfully mirrored).

Case conversion uses Lean's `Char.toLower` / `Char.toUpper`, which agree
with JavaScript's `toLowerCase` / `toUpperCase` on ASCII text, the
character range the engine manipulates.
-/

namespace Jobtimizer

/-- JavaScript string model: a list of characters. -/
abbrev JStr := List Char

/-- Convert a Lean string literal to the model type. -/
def str (s : String) : JStr := s.data

/-- `\w` character class of JavaScript regexes: `[A-Za-z0-9_]`. -/
def isWordChar (c : Char) : Bool :=
  (97 ≤ c.toNat && c.toNat ≤ 122) || (65 ≤ c.toNat && c.toNat ≤ 90) ||
  (48 ≤ c.toNat && c.toNat ≤ 57) || c.toNat = 95

/-- `\s` character class of JavaScript regexes (whitespace, line
terminators and the Unicode space characters). -/
def isJsWs (c : Char) : Bool :=
  (c.toNat = 32 || c.toNat = 9 || c.toNat = 10 || c.toNat = 13 ||
   c.toNat = 11 || c.toNat = 12 || c.toNat = 160 || c.toNat = 5760 ||
   (8192 ≤ c.toNat && c.toNat ≤ 8202) || c.toNat = 8232 ||
   c.toNat = 8233 || c.toNat = 8239 || c.toNat = 8287 ||
   c.toNat = 12288 || c.toNat = 65279)

/-- ASCII decimal digit (`\d`). -/
def isDigitCh (c : Char) : Bool := (48 ≤ c.toNat && c.toNat ≤ 57)

/-- `String.prototype.toLowerCase`, character by character. -/
def jsLower (s : JStr) : JStr := s.map Char.toLower

/-- `String.prototype.trim`: drop JavaScript whitespace from both ends. -/
def jsTrim (s : JStr) : JStr :=
  ((s.dropWhile isJsWs).reverse.dropWhile isJsWs).reverse

/-- One pass of `.replace(/\s+/g, ' ')`: `prevWs` records whether the
previous character was whitespace; a whitespace run emits a single `' '`
at its first character and nothing afterwards. -/
def collapseWsGo (prevWs : Bool) : JStr → JStr
  | [] => []
  | c :: cs =>
    if isJsWs c then (if prevWs then [] else [' ']) ++ collapseWsGo true cs
    else c :: collapseWsGo false cs

/-- `.replace(/\s+/g, ' ')`: collapse every whitespace run to one space. -/
def collapseWs (s : JStr) : JStr := collapseWsGo false s

/-- Exact (case-sensitive) leading-match test: does `pat` occur at the
start of `text`? (`String.prototype.startsWith` / anchored literal.) -/
def leadsEq : JStr → JStr → Bool
  | [], _ => true
  | _ :: _, [] => false
  | p :: ps, t :: ts => p = t && leadsEq ps ts

/-- Case-insensitive leading-match test (anchored literal with the `i`
regex flag). -/
def ciLead : JStr → JStr → Bool
  | [], _ => true
  | _ :: _, [] => false
  | p :: ps, t :: ts => Char.toLower p = Char.toLower t && ciLead ps ts

/-- Join a list of strings with a single-character separator
(`Array.prototype.join`). -/
def joinWith (sep : Char) : List JStr → JStr
  | [] => []
  | [x] => x
  | x :: y :: rest => x ++ sep :: joinWith sep (y :: rest)

/-! ### The posting record

`Job` (`shared/schema.ts`): `title` and `description` are non-null; the
remaining text fields are nullable, modelled as possibly empty `JStr`. -/

structure Job where
  title : JStr
  description : JStr
  company : JStr := []
  location : JStr := []
  jobType : JStr := []
  category : JStr := []
  salary : JStr := []
  focusKeyphrase : JStr := []
  metaDescription : JStr := []
  deriving Repr, DecidableEq

/-- `KeywordData` of the source: a candidate term with its frequency and
relevance weight (`2` stands for the source's `2.0`, `1` for `1.0`). -/
structure KeywordData where
  term : JStr
  frequency : Nat
  relevance : Nat
  deriving Repr, DecidableEq

/-! ### KeywordExtractor and RelevanceScorer (`extractKeywords`,
`calculateRelevance`, seo-service.ts lines 59-86) -/

/-- The fixed `industryKeywords` table of the source. -/
def industryKeywords : List JStr :=
  [str "healthcare", str "software", str "engineer", str "manager",
   str "analyst", str "remote", str "full time", str "part time",
   str "senior", str "junior", str "assistant", str "director",
   str "coordinator", str "south africa", str "cape town",
   str "johannesburg", str "durban", str "pretoria", str "nursing",
   str "pharmacy", str "medical", str "hospital", str "clinic",
   str "developer", str "programmer", str "technical", str "IT",
   str "technology", str "marketing", str "sales",
   str "customer service", str "administration", str "finance",
   str "accounting", str "banking", str "insurance", str "education",
   str "teaching", str "training", str "academic", str "construction",
   str "engineering", str "maintenance", str "operations"]

/-- The fixed `stopWords` table of the source. -/
def stopWords : List JStr :=
  [str "the", str "a", str "an", str "and", str "or", str "but",
   str "in", str "on", str "at", str "to", str "for", str "of",
   str "with", str "by", str "is", str "are", str "was", str "were",
   str "be", str "been", str "being", str "have", str "has", str "had",
   str "do", str "does", str "did", str "will", str "would",
   str "should", str "could", str "can", str "may", str "might",
   str "this", str "that", str "these", str "those", str "i",
   str "you", str "he", str "she", str "it", str "we", str "they"]

/-- `calculateRelevance`: `2.0` when some industry keyword contains the
term or the term contains the keyword, else `1.0`. -/
def calculateRelevance (term : JStr) : Nat :=
  if industryKeywords.any (fun kw => decide (term <:+: kw) || decide (kw <:+: term))
  then 2 else 1

/-- `.replace(/[^\w\s]/g, ' ')`: replace non-word, non-space characters
with a space (tokenizer of `extractKeywords`, line 61). -/
def stripNonWordToSpace (s : JStr) : JStr :=
  s.map (fun c => if isWordChar c || isJsWs c then c else ' ')

/-- The filtered token list of `extractKeywords` (lines 60-63): split on
whitespace, keep tokens of length `> 2` that are not stop words.  (Our
whitespace split keeps empty segments where JavaScript's `/\s+/` split
would not produce them, but every empty segment is removed by the
length filter, so the result coincides.) -/
def wordsOf (content : JStr) : List JStr :=
  ((stripNonWordToSpace content).splitOnP isJsWs).filter
    (fun w => 2 < w.length && !(stopWords.contains w))

/-- One step of the `frequency[word] = (frequency[word] || 0) + 1` fold:
bump the count of `w`, appending a fresh key at the end on first sight
(JavaScript object insertion order). -/
def bump : List (JStr × Nat) → JStr → List (JStr × Nat)
  | [], w => [(w, 1)]
  | (k, n) :: rest, w =>
    if k = w then (k, n + 1) :: rest else (k, n) :: bump rest w

/-- The `frequency` record built by `extractKeywords` (lines 65-68), as
an association list in key insertion order. -/
def freqList (ws : List JStr) : List (JStr × Nat) := ws.foldl bump []

/-- Numeric value of a digit string. -/
def natOfDigits (s : JStr) : Nat := s.foldl (fun acc c => 10 * acc + (c.toNat - 48)) 0

/-- Is the string a canonical array index in the sense of the ECMAScript
property-order rules: the decimal representation (no leading zeros) of an
integer below `2^32 - 1`?  `Object.entries` enumerates such keys first,
in ascending numeric order, before the remaining string keys in
insertion order. -/
def isArrayIndex (s : JStr) : Bool :=
  !s.isEmpty && s.all isDigitCh && (s = ['0'] || s.head? ≠ some '0') &&
  natOfDigits s < 4294967295

/-- Insertion (ascending by numeric key value) used to order the
array-index keys of `Object.entries`. -/
def insertAscIdx (x : JStr × Nat) : List (JStr × Nat) → List (JStr × Nat)
  | [] => [x]
  | y :: ys =>
    if natOfDigits x.1 < natOfDigits y.1 then x :: y :: ys
    else y :: insertAscIdx x ys

/-- `Object.entries` enumeration order applied to the frequency record:
array-index keys first in ascending numeric order, then the remaining
keys in insertion order. -/
def jsEntries (l : List (JStr × Nat)) : List (JStr × Nat) :=
  (l.filter (fun e => isArrayIndex e.1)).foldr insertAscIdx [] ++
    l.filter (fun e => !isArrayIndex e.1)

/-- Sort key of `extractKeywords`: `frequency * relevance` (the source's
comparator is `(b.frequency * b.relevance) - (a.frequency * a.relevance)`,
i.e. descending in this key). -/
def sortKey (e : KeywordData) : Nat := e.frequency * e.relevance

/-- Stable descending insertion for the keyword sort: an element is
placed before the first element whose key is `≤` its own, so elements
with equal keys keep their relative order.  (`Array.prototype.sort` is
specified to be stable; any stable sort realises the same output for
this consistent comparator.) -/
def insertDesc (x : KeywordData) : List KeywordData → List KeywordData
  | [] => [x]
  | y :: ys => if sortKey y ≤ sortKey x then x :: y :: ys else y :: insertDesc x ys

/-- Stable sort by descending `sortKey`. -/
def sortDesc (l : List KeywordData) : List KeywordData := l.foldr insertDesc []

/-- The keyword candidates of `extractKeywords` in `Object.entries`
order, before sorting (lines 70-75). -/
def entriesList (content : JStr) : List KeywordData :=
  (jsEntries (freqList (wordsOf content))).map
    (fun e => { term := e.1, frequency := e.2, relevance := calculateRelevance e.1 })

/-- `extractKeywords` (lines 59-79): tokenize, count, weight, sort by
descending `frequency * relevance` (stable), return the top 20. -/
def extractKeywords (content : JStr) : List KeywordData :=
  (sortDesc (entriesList content)).take 20

/-! ### FocusPhraseBuilder (`generateFocusKeyphrase`, lines 88-98) -/

/-- The location as cleaned by `generateFocusKeyphrase`:
`job.location?.toLowerCase().replace(/[^\w\s]/g, '').trim()`
(note: here the non-word characters are removed, not spaced). -/
def cleanLocation (job : Job) : JStr :=
  jsTrim ((jsLower job.location).filter (fun c => isWordChar c || isJsWs c))

/-- `generateFocusKeyphrase`: top-3 keyword terms, push the cleaned
location if non-empty and not already present, truncate back to 3,
join with spaces. -/
def generateFocusKeyphrase (keywords : List KeywordData) (job : Job) : JStr :=
  let topKeywords := (keywords.take 3).map (·.term)
  let location := cleanLocation job
  let topKeywords :=
    if location ≠ [] ∧ location ∉ topKeywords then topKeywords ++ [location]
    else topKeywords
  joinWith ' ' (topKeywords.take 3)

/-! ### MetaDescriptionBuilder (`generateMetaDescription`, lines 100-119) -/

/-- `job.company || 'Leading company'`. -/
def metaCompany (job : Job) : JStr :=
  if job.company ≠ [] then job.company else str "Leading company"

/-- `job.location || 'South Africa'`. -/
def metaLocation (job : Job) : JStr :=
  if job.location ≠ [] then job.location else str "South Africa"

/-- `job.jobType || 'position'`. -/
def metaJobType (job : Job) : JStr :=
  if job.jobType ≠ [] then job.jobType else str "position"

/-- The assembled meta description before the length cap. -/
def metaRaw (job : Job) : JStr :=
  str "Join " ++ metaCompany job ++ str " as a " ++ job.title ++ str " in " ++
    metaLocation job ++ str ". " ++
  (if job.salary ≠ [] then str "Competitive salary " ++ job.salary ++ str ". " else []) ++
  str "Apply now for this exciting " ++ metaJobType job ++ str " opportunity."

/-- `generateMetaDescription`: the assembled template, truncated to its
first 157 characters plus `'...'` when longer than 160 characters. -/
def generateMetaDescription (job : Job) : JStr :=
  if 160 < (metaRaw job).length then (metaRaw job).take 157 ++ str "..." else metaRaw job

/-! ### TitleNormalizer (`optimizeTitle`, lines 121-140) -/

/-- The punctuation class of `optimizeTitle`
(`[!@#$%^&*()_+={}[\]|\\:";'<>?,.\/~`]`) — notably without `-`. -/
def punctList : JStr :=
  str "!@#$%^&*()_+=\x7b\x7d[]|\\:\";\x27<>?,./~\x60"

/-- Replace each punctuation character with a space. -/
def stripPunct (s : JStr) : JStr :=
  s.map (fun c => if c ∈ punctList then ' ' else c)

/-- `.replace(/\b\w/g, c => c.toUpperCase())`: upper-case every word
character that starts a word; `prev` records whether the previous
character was a word character (`false` at the start of the string). -/
def capWords (prev : Bool) : JStr → JStr
  | [] => []
  | c :: cs =>
    (if isWordChar c && !prev then Char.toUpper c else c) ::
      capWords (isWordChar c) cs

/-- The locality-marker test of `optimizeTitle`: does the lower-cased
title contain one of the fixed markers? -/
def hasLocalityMarker (s : JStr) : Bool :=
  decide (str "remote" <:+: jsLower s) || decide (str "south africa" <:+: jsLower s) ||
  decide (str "cape town" <:+: jsLower s) || decide (str "johannesburg" <:+: jsLower s)

/-- The cleaned, capitalized core of `optimizeTitle`, before the
locality suffix decision. -/
def titleCore (title : JStr) : JStr :=
  capWords false (jsTrim (collapseWs (stripPunct title)))

/-- `optimizeTitle`: strip punctuation to spaces, collapse whitespace,
trim, capitalize word starts, then append `" - South Africa"` when no
locality marker is present. -/
def optimizeTitle (title : JStr) : JStr :=
  if hasLocalityMarker (titleCore title) then titleCore title
  else titleCore title ++ str " - South Africa"

/-! ### ScoreCalculator (`calculateSEOScore`, lines 142-190).  Each `if`
of the source contributes one additive bonus; the returned value is
`Math.min(100, Math.max(0, score))`. -/

def titleBonus (job : Job) : Nat :=
  if job.title ≠ [] ∧ 10 ≤ job.title.length ∧ job.title.length ≤ 60 then 10 else 0

def descriptionBonus (job : Job) : Nat :=
  if job.description ≠ [] ∧ 150 ≤ job.description.length ∧ job.description.length ≤ 2000
  then 10 else 0

def keywordBonus (keywords : List KeywordData) : Nat :=
  match keywords.head? with
  | some k => if 2 ≤ k.frequency ∧ k.frequency ≤ 5 then 10 else 0
  | none => 0

def companyBonus (job : Job) : Nat :=
  if job.company ≠ [] ∧ 0 < job.company.length then 5 else 0

def locationBonus (job : Job) : Nat :=
  if job.location ≠ [] ∧ 0 < job.location.length then 5 else 0

def jobTypeBonus (job : Job) : Nat :=
  if job.jobType ≠ [] ∧ 0 < job.jobType.length then 5 else 0

def categoryBonus (job : Job) : Nat :=
  if job.category ≠ [] ∧ 0 < job.category.length then 5 else 0

def focusFieldBonus (job : Job) : Nat :=
  if job.focusKeyphrase ≠ [] then 10 else 0

def metaFieldBonus (job : Job) : Nat :=
  if job.metaDescription ≠ [] then 10 else 0

/-- The accumulated score of `calculateSEOScore` before clamping:
base 50 plus the nine independent bonuses. -/
def seoScoreRaw (job : Job) (keywords : List KeywordData) : Nat :=
  50 + titleBonus job + descriptionBonus job + keywordBonus keywords +
    companyBonus job + locationBonus job + jobTypeBonus job +
    categoryBonus job + focusFieldBonus job + metaFieldBonus job

/-- `calculateSEOScore` (the `focusKeyphrase` argument is part of the
call signature but unused by the arithmetic, as in the source). -/
def calculateSEOScore (job : Job) (keywords : List KeywordData) (_fk : JStr) : Nat :=
  min 100 (max 0 (seoScoreRaw job keywords))

/-! ### RecommendationEngine (`generateRecommendations`, lines 192-231) -/

def recTitle : JStr := str "Improve job title - should be 10-60 characters long"
def recDescription : JStr := str "Add more detailed job description (minimum 150 characters)"
def recCompany : JStr := str "Add company name for better credibility"
def recLocation : JStr := str "Specify job location for better local SEO"
def recFocus : JStr := str "Add focus keyphrase for better search ranking"
def recMeta : JStr := str "Create compelling meta description to improve click-through rate"
def recOverall : JStr := str "Overall SEO optimization needed - consider professional review"

/-- The interpolated top-keyword recommendation
`Include "${term}" more frequently in the description`. -/
def recKeyword (term : JStr) : JStr :=
  str "Include \"" ++ term ++ str "\" more frequently in the description"

/-- `generateRecommendations`: the independent checks, in source order. -/
def generateRecommendations (job : Job) (score : Nat) (keywords : List KeywordData) :
    List JStr :=
  (if job.title = [] ∨ job.title.length < 10 then [recTitle] else []) ++
  (if job.description = [] ∨ job.description.length < 150 then [recDescription] else []) ++
  (if job.company = [] then [recCompany] else []) ++
  (if job.location = [] then [recLocation] else []) ++
  (if job.focusKeyphrase = [] then [recFocus] else []) ++
  (if job.metaDescription = [] then [recMeta] else []) ++
  (match keywords.head? with
   | some k => if k.frequency < 2 then [recKeyword k.term] else []
   | none => []) ++
  (if score < 70 then [recOverall] else [])

/-! ### `analyzeJob` (lines 37-57) -/

structure SEOAnalysis where
  score : Nat
  recommendations : List JStr
  focusKeyphrase : JStr
  metaDescription : JStr
  optimizedTitle : JStr
  deriving Repr, DecidableEq

/-- The combined corpus fed to `extractKeywords`:
`` `${title} ${description} ${job.company || ''} ${job.location || ''}`.toLowerCase() ``
where `title` and `description` were already lower-cased. -/
def analyzeContent (job : Job) : JStr :=
  jsLower (jsLower job.title ++ ' ' :: jsLower job.description ++ ' ' ::
    job.company ++ ' ' :: job.location)

/-! ### ContentSectionizer (`identifyContentSections`, lines 317-399)

The contact-information step runs the regex
`/(?:contact|call|phone|email)[\s\S]*?(?:\d{3}[\s-]?\d{3}[\s-]?\d{4}|\d{10}|[\w.-]+@[\w.-]+)/gi`
over the body and then feeds the matched spans, joined with `|`, straight
into `new RegExp(..., 'gi')` without escaping.  The matcher below is the
hand compilation of that fixed regex.  The dynamically built removal
pattern is modelled literally when the matched spans contain no regex
metacharacter; a span containing a metacharacter makes the constructed
pattern either invalid — `new RegExp` then throws `SyntaxError` (for
example an unbalanced `(` in the span, see `parensBalanced`) — or
reinterpreted as regex syntax, so the embedding signals these inputs
through `Except.error` instead of modelling them as plain text. -/

/-- `[\s-]` separator inside the phone alternatives. -/
def isSepCh (c : Char) : Bool := isJsWs c || c = '-'

/-- `[\w.-]` character class of the email alternative. -/
def isEmailCh (c : Char) : Bool := isWordChar c || c = '.' || c = '-'

/-- Consume exactly `n` digits, returning the rest of the string. -/
def digitsTake : Nat → JStr → Option JStr
  | 0, t => some t
  | _ + 1, [] => none
  | n + 1, c :: rest => if isDigitCh c then digitsTake n rest else none

/-- `\d{3}[\s-]?\d{3}[\s-]?\d{4}` at the start of `t`: number of
characters consumed, if it matches (each greedy `[\s-]?` first tries to
consume a separator, backtracking to the empty match). -/
def phoneAltLen (t : JStr) : Option Nat :=
  (digitsTake 3 t).bind fun r3 =>
    let step2 : JStr → Option Nat := fun r =>
      (digitsTake 3 r).bind fun r6 =>
        let step3 : JStr → Option Nat := fun r2 =>
          (digitsTake 4 r2).map fun r10 => t.length - r10.length
        match r6 with
        | c :: rest => if isSepCh c then (step3 rest).orElse (fun _ => step3 r6) else step3 r6
        | [] => step3 r6
    match r3 with
    | c :: rest => if isSepCh c then (step2 rest).orElse (fun _ => step2 r3) else step2 r3
    | [] => step2 r3

/-- `\d{10}` at the start of `t`. -/
def tenDigitsLen (t : JStr) : Option Nat :=
  (digitsTake 10 t).map fun _ => 10

/-- `[\w.-]+@[\w.-]+` at the start of `t` (both `+` are greedy; `@` is
outside the class, so the first run must stop exactly at an `@`). -/
def emailAltLen (t : JStr) : Option Nat :=
  let r1 := t.takeWhile isEmailCh
  if r1 = [] then none
  else
    match t.drop r1.length with
    | '@' :: r =>
      let r2 := r.takeWhile isEmailCh
      if r2 = [] then none else some (r1.length + 1 + r2.length)
    | _ => none

/-- The terminator alternation
`(?:\d{3}[\s-]?\d{3}[\s-]?\d{4}|\d{10}|[\w.-]+@[\w.-]+)`, alternatives
tried in source order. -/
def termAltLen (t : JStr) : Option Nat :=
  (phoneAltLen t).orElse fun _ =>
    (tenDigitsLen t).orElse fun _ => emailAltLen t

/-- The lazy `[\s\S]*?` followed by the terminator: the total number of
characters consumed from `t` for the smallest possible gap. -/
def lazyTermLen : JStr → Option Nat
  | [] => none
  | c :: rest =>
    match termAltLen (c :: rest) with
    | some k => some k
    | none => (lazyTermLen rest).map (· + 1)

/-- The word alternation `(?:contact|call|phone|email)` at the start of
`t` (case-insensitive): length of the matched word.  At any position at
most one of the four words can match, so no backtracking across the
alternation is needed. -/
def contactWordLen (t : JStr) : Option Nat :=
  if ciLead (str "contact") t then some 7
  else if ciLead (str "call") t then some 4
  else if ciLead (str "phone") t then some 5
  else if ciLead (str "email") t then some 5
  else none

/-- A full match of the contact regex anchored at the start of `t`:
total length consumed. -/
def contactMatchLen (t : JStr) : Option Nat :=
  (contactWordLen t).bind fun pl =>
    (lazyTermLen (t.drop pl)).map fun l => pl + l

/-- `content.match(contactRegex)` with the `g` flag: all non-overlapping
matches, scanning left to right and resuming after each match.  (A match
is at least 5 characters long — the word plus a non-empty terminator —
every step consumes at least one character, so `s.length` units of fuel
always suffice and the fuel-exhausted branch is unreachable.) -/
def contactScanGo : Nat → JStr → List JStr
  | 0, _ => []
  | _ + 1, [] => []
  | fuel + 1, c :: rest =>
    match contactMatchLen (c :: rest) with
    | some L => (c :: rest).take L :: contactScanGo fuel ((c :: rest).drop L)
    | none => contactScanGo fuel rest

/-- `content.match(contactRegex)` with the `g` flag: all non-overlapping
matches, scanning left to right and resuming after each match (a match
is at least 5 characters long). -/
def contactScan (s : JStr) : List JStr := contactScanGo s.length s

/-- Regex metacharacters: a dynamically assembled pattern containing none
of these is interpreted exactly as literal text by `new RegExp`. -/
def regexMeta : JStr := str "\\^$.|?*+()[]\x7b\x7d"

/-- Parenthesis balance check: a JavaScript regex pattern whose `(` and
`)` do not balance is rejected by `new RegExp` with `SyntaxError`
(unterminated or unmatched group).  Used to exhibit concrete inputs on
which the source's dynamic `RegExp` construction throws. -/
def parensBalanced (s : JStr) : Bool :=
  (s.foldl (fun acc c =>
      match acc with
      | none => none
      | some d => if c = '(' then some (d + 1)
                  else if c = ')' then (if d = 0 then none else some (d - 1))
                  else some d)
    (some 0)) = some 0

/-- First alternative of `alts` matching (case-insensitively) at the
start of `t`: its length. -/
def altHit (alts : List JStr) (t : JStr) : Option Nat :=
  match alts with
  | [] => none
  | a :: rest => if ciLead a t then some a.length else altHit rest t

/-- `content.replace(new RegExp(matches.join('|'), 'gi'), '')` for a
literal (metacharacter-free) alternation, fuelled recursion: every
alternative is a non-empty contact match, so every step consumes at
least one character and `s.length` units of fuel always suffice. -/
def removeAltsGo (alts : List JStr) : Nat → JStr → JStr
  | 0, s => s
  | _ + 1, [] => []
  | fuel + 1, c :: rest =>
    match altHit alts (c :: rest) with
    | some k => removeAltsGo alts fuel ((c :: rest).drop k)
    | none => c :: removeAltsGo alts fuel rest

/-- `content.replace(new RegExp(matches.join('|'), 'gi'), '')` for a
literal (metacharacter-free) alternation: delete every non-overlapping
match, scanning left to right, alternatives tried in order. -/
def removeAlts (alts : List JStr) (s : JStr) : JStr := removeAltsGo alts s.length s

/-- The contact-information step of `identifyContentSections` (lines
336-341): collect the matches, join them for `contactInfo`, and remove
them from the working text via the dynamically constructed regex.  The
`Except.error` branch marks the inputs on which that construction throws
or escapes the literal reading (see the section comment). -/
def contactStep (content : JStr) : Except JStr (JStr × JStr) :=
  match contactScan content with
  | [] => Except.ok ([], content)
  | ms =>
    if (joinWith '|' ms).all (fun c => !(regexMeta.contains c)) then
      Except.ok (jsTrim (joinWith ' ' ms), removeAlts ms content)
    else Except.error (str "SyntaxError: invalid dynamically constructed RegExp")

/-- Word-boundary test for `\b` placed before a word character: the
previous character (if any) must not be a word character. -/
def boundaryOk : Option Char → Bool
  | none => true
  | some p => !isWordChar p

/-- Index of the first position of `text` where `kw` occurs preceded by
a word boundary (the `new RegExp('\\b' + keyword + '[\\s\\S]{0,500}', 'gi')`
search of `extractSection`; every keyword starts with a letter). -/
def kwSearch (kw : JStr) (prev : Option Char) : JStr → Option Nat
  | [] => none
  | c :: rest =>
    if boundaryOk prev && ciLead kw (c :: rest) then some 0
    else (kwSearch kw (some c) rest).map (· + 1)

/-- `extractSection` (lines 381-390): for the first keyword (in priority
order) found in the text, capture the keyword plus up to 500 following
characters; otherwise the empty string. -/
def extractSection (content : JStr) : List JStr → JStr
  | [] => []
  | kw :: rest =>
    match kwSearch kw none content with
    | some i => (content.drop i).take (kw.length + 500)
    | none => extractSection content rest

/-- `content.replace(sectionText, '')` with a plain-string pattern:
remove the first (case-sensitive) occurrence. -/
def delFirst (sub : JStr) : JStr → JStr
  | [] => []
  | c :: rest =>
    if leadsEq sub (c :: rest) then (c :: rest).drop sub.length
    else c :: delFirst sub rest

/-- `extractListItems` (lines 392-399): split the captured span on the
bullet delimiters, trim, keep pieces of length `> 10` and `< 150`, cap
at 8 items. -/
def extractListItems (sect : JStr) : List JStr :=
  ((((sect.splitOnP (fun c => c = '-' || c = '•' || c = '·')).map jsTrim).filter
    (fun i => 10 < i.length && i.length < 150)).take 8)

def responsibilityKeywords : List JStr :=
  [str "responsibilities", str "duties", str "tasks", str "role",
   str "position", str "areas include"]

def requirementKeywords : List JStr :=
  [str "requirements", str "qualifications", str "experience",
   str "education", str "minimum", str "must have"]

def skillKeywords : List JStr :=
  [str "skills", str "competencies", str "abilities", str "technical",
   str "software", str "computer"]

def companyKeywords : List JStr :=
  [str "company", str "organization", str "group", str "about us",
   str "our", str "we are"]

structure ContentSections where
  overview : JStr := []
  responsibilities : List JStr := []
  requirements : List JStr := []
  skills : List JStr := []
  companyInfo : JStr := []
  applicationInfo : JStr := []
  contactInfo : JStr := []
  deriving Repr, DecidableEq

/-- `identifyContentSections` (lines 317-379): contact extraction, then
the four keyword-window sections, each removed from the working text
before the next is searched; the remaining text becomes the overview.
`applicationInfo` is never assigned by the source and stays empty. -/
def identifyContentSectionsE (content : JStr) : Except JStr ContentSections :=
  match contactStep content with
  | Except.error e => Except.error e
  | Except.ok (cInfo, c1) =>
    let respSec := extractSection c1 responsibilityKeywords
    let resp := if respSec ≠ [] then extractListItems respSec else []
    let c2 := if respSec ≠ [] then delFirst respSec c1 else c1
    let reqSec := extractSection c2 requirementKeywords
    let reqs := if reqSec ≠ [] then extractListItems reqSec else []
    let c3 := if reqSec ≠ [] then delFirst reqSec c2 else c2
    let skillSec := extractSection c3 skillKeywords
    let skls := if skillSec ≠ [] then extractListItems skillSec else []
    let c4 := if skillSec ≠ [] then delFirst skillSec c3 else c3
    let compSec := extractSection c4 companyKeywords
    let compInfo := if compSec ≠ [] then compSec.take 300 else []
    let c5 := if compSec ≠ [] then delFirst compSec c4 else c4
    Except.ok
      { overview := (jsTrim c5).take 200, responsibilities := resp,
        requirements := reqs, skills := skls, companyInfo := compInfo,
        applicationInfo := [], contactInfo := cInfo }

/-! ### ContentAssembler (`restructureContent`, lines 254-315) -/

/-- Global literal replacement `.replace(/sub/g, repl)` for the two
HTML-entity cleanups (both patterns are non-empty metacharacter-free
literals), fuelled recursion: every step past a match consumes
`sub.length ≥ 1` characters, so `s.length` units of fuel suffice. -/
def replaceAllSubGo (sub repl : JStr) : Nat → JStr → JStr
  | 0, s => s
  | _ + 1, [] => []
  | fuel + 1, c :: rest =>
    if leadsEq sub (c :: rest) then
      repl ++ replaceAllSubGo sub repl fuel ((c :: rest).drop sub.length)
    else c :: replaceAllSubGo sub repl fuel rest

/-- Global literal replacement `.replace(/sub/g, repl)`. -/
def replaceAllSub (sub repl : JStr) (s : JStr) : JStr :=
  replaceAllSubGo sub repl s.length s

/-- The normalization at the head of `restructureContent` (lines
256-260): entity cleanup, whitespace collapse, trim. -/
def normalizeBody (d : JStr) : JStr :=
  jsTrim (collapseWs (replaceAllSub (str "&#038;") (str "&")
    (replaceAllSub (str "&#8211;") (str "-") d)))

/-- One bulleted list block of the assembled document. -/
def bulletBlock (heading : JStr) (items : List JStr) : JStr :=
  heading ++ str "\n<ul>\n" ++
    (items.map (fun it => str "<li>" ++ it ++ str "</li>\n")).foldr (· ++ ·) [] ++
    str "</ul>\n\n"

/-- The structured document assembled from the sections (lines 265-312),
emitting only non-empty sections, in the fixed order of the source. -/
def buildStructured (s : ContentSections) : JStr :=
  (if s.overview ≠ [] then
    str "<h2>Job Overview</h2>\n<p>" ++ s.overview ++ str "</p>\n\n" else []) ++
  (if s.responsibilities ≠ [] then
    bulletBlock (str "<h2>Key Responsibilities</h2>") s.responsibilities else []) ++
  (if s.requirements ≠ [] then
    bulletBlock (str "<h2>Requirements</h2>") s.requirements else []) ++
  (if s.skills ≠ [] then
    bulletBlock (str "<h2>Required Skills</h2>") s.skills else []) ++
  (if s.companyInfo ≠ [] then
    str "<h2>About the Company</h2>\n<p>" ++ s.companyInfo ++ str "</p>\n\n" else []) ++
  (if s.applicationInfo ≠ [] then
    str "<h2>How to Apply</h2>\n<p>" ++ s.applicationInfo ++ str "</p>\n\n" else []) ++
  (if s.contactInfo ≠ [] then
    str "<h2>Contact Information</h2>\n<p>" ++ s.contactInfo ++ str "</p>\n" else [])

/-- `restructureContent` (lines 254-315): normalize the body, sectionize
it, assemble the structured document, falling back to the normalized
text when no section produced content (`structuredContent || content`). -/
def restructureContentE (job : Job) : Except JStr JStr :=
  match identifyContentSectionsE (normalizeBody job.description) with
  | Except.error e => Except.error e
  | Except.ok secs =>
    Except.ok (if buildStructured secs ≠ [] then buildStructured secs
               else normalizeBody job.description)

/-- `analyzeJob`. -/
def analyzeJob (job : Job) : SEOAnalysis :=
  let keywords := extractKeywords (analyzeContent job)
  let focusKeyphrase := generateFocusKeyphrase keywords job
  let metaDescription := generateMetaDescription job
  let optimizedTitle := optimizeTitle job.title
  let score := calculateSEOScore job keywords focusKeyphrase
  let recommendations := generateRecommendations job score keywords
  { score := score, recommendations := recommendations,
    focusKeyphrase := focusKeyphrase, metaDescription := metaDescription,
    optimizedTitle := optimizedTitle }

/-! ### Support definitions for the statements below -/

/-- All nine score bonuses of `calculateSEOScore` apply. -/
def allNineBonuses (job : Job) (kws : List KeywordData) : Prop :=
  titleBonus job = 10 ∧ descriptionBonus job = 10 ∧ keywordBonus kws = 10 ∧
  companyBonus job = 5 ∧ locationBonus job = 5 ∧ jobTypeBonus job = 5 ∧
  categoryBonus job = 5 ∧ focusFieldBonus job = 10 ∧ metaFieldBonus job = 10

instance (job : Job) (kws : List KeywordData) : Decidable (allNineBonuses job kws) := by
  unfold allNineBonuses; infer_instance

/-- Every section of a `ContentSections` value is empty. -/
def sectionsAllEmpty (s : ContentSections) : Prop :=
  s.overview = [] ∧ s.responsibilities = [] ∧ s.requirements = [] ∧
  s.skills = [] ∧ s.companyInfo = [] ∧ s.applicationInfo = [] ∧ s.contactInfo = []

/-- A posting on which every one of the nine score bonuses applies. -/
def jobFull : Job :=
  { title := str "Senior Staff Nurse", description := List.replicate 150 'x',
    company := str "Acme Health", location := str "Cape Town",
    jobType := str "Full-time", category := str "Healthcare",
    salary := [], focusKeyphrase := str "staff nurse",
    metaDescription := str "Apply today" }

/-- A keyword list whose top candidate has frequency in `[2,5]`. -/
def kwsFull : List KeywordData := [{ term := str "nurse", frequency := 3, relevance := 2 }]

/-- No two adjacent whitespace characters. -/
def noWs2 (a b : Char) : Prop := ¬(isJsWs a = true ∧ isJsWs b = true)

instance : DecidableRel noWs2 := fun a b =>
  inferInstanceAs (Decidable (¬(isJsWs a = true ∧ isJsWs b = true)))

/-- Whitespace normal form: every whitespace character is a plain space
and no two whitespace characters are adjacent — exactly the strings
fixed by `collapseWs`. -/
def wsNormal (s : JStr) : Prop :=
  (∀ c ∈ s, isJsWs c = true → c = ' ') ∧ List.Chain' noWs2 s

/-- The `prev` state of `capWords` after traversing `u`, starting from
`p`: whether the last character of `u` (if any) is a word character. -/
def lastWordState (p : Bool) (u : JStr) : Bool :=
  match u.getLast? with
  | none => p
  | some c => isWordChar c

/-- A posting whose title makes the assembled meta description exceed
160 characters. -/
def jobLongTitle : Job := { title := List.replicate 140 'x', description := str "d" }

end Jobtimizer

namespace Jobtimizer

/-! ## Theorems -/

/-- **C1** (corrected).  For every posting the score returned by
`calculateSEOScore` (and hence by `analyzeJob`) is an integer in
`[0,100]`, computed as base 50 plus the nine independently evaluated
bonuses and then clamped; when all nine bonuses apply the pre-clamp sum
is `120` (not `110` as claimed: the bonuses total `70`), and the clamp
yields `100`. -/
theorem score_clamped_and_full_bonus (job : Job) (kws : List KeywordData) (fk : JStr) :
    calculateSEOScore job kws fk ≤ 100 ∧
    calculateSEOScore job kws fk = min 100 (max 0 (seoScoreRaw job kws)) ∧
    (analyzeJob job).score ≤ 100 ∧
    (allNineBonuses job kws →
      seoScoreRaw job kws = 120 ∧ calculateSEOScore job kws fk = 100) := by
  refine ⟨Nat.min_le_left _ _, rfl, Nat.min_le_left _ _, ?_⟩
  rintro ⟨h1, h2, h3, h4, h5, h6, h7, h8, h9⟩
  have hraw : seoScoreRaw job kws = 120 := by
    unfold seoScoreRaw
    rw [h1, h2, h3, h4, h5, h6, h7, h8, h9]
  exact ⟨hraw, by unfold calculateSEOScore; rw [hraw]; decide⟩

/-- Witness for C1: a concrete posting with all nine bonuses. -/
theorem score_clamped_and_full_bonus_witness :
    allNineBonuses jobFull kwsFull ∧
    seoScoreRaw jobFull kwsFull = 120 ∧ calculateSEOScore jobFull kwsFull [] = 100 :=
  ⟨by decide, (score_clamped_and_full_bonus jobFull kwsFull []).2.2.2 (by decide)⟩

/-- Counterexample for C1 as stated: at a posting where all nine bonuses
apply, the pre-clamp sum is `120`, not `110` (the clamped score is still
`100`). -/
theorem score_preclamp_not_110 :
    allNineBonuses jobFull kwsFull ∧ seoScoreRaw jobFull kwsFull = 120 ∧
    seoScoreRaw jobFull kwsFull ≠ 110 ∧ calculateSEOScore jobFull kwsFull [] = 100 := by
  refine ⟨by decide, by decide, by decide, by decide⟩

/-- **C2** (confirmed).  The meta description never exceeds 160
characters, and whenever the assembled template exceeds 160 characters
the result is exactly its first 157 characters followed by three literal
periods, of total length 160. -/
theorem metaDescription_capped (job : Job) :
    (generateMetaDescription job).length ≤ 160 ∧
    (160 < (metaRaw job).length →
      generateMetaDescription job = (metaRaw job).take 157 ++ str "..." ∧
      (generateMetaDescription job).length = 160) := by
  have h3 : (str "...").length = 3 := rfl
  unfold generateMetaDescription
  by_cases h : 160 < (metaRaw job).length
  · rw [if_pos h]
    have hlen : ((metaRaw job).take 157 ++ str "...").length = 160 := by
      rw [List.length_append, List.length_take, h3]
      omega
    exact ⟨le_of_eq hlen, fun _ => ⟨rfl, hlen⟩⟩
  · rw [if_neg h]
    exact ⟨by omega, fun hc => absurd hc h⟩

/-- Witness for C2: a posting whose assembled meta description exceeds
160 characters. -/
theorem metaDescription_capped_witness :
    160 < (metaRaw jobLongTitle).length ∧
    generateMetaDescription jobLongTitle = (metaRaw jobLongTitle).take 157 ++ str "..." ∧
    (generateMetaDescription jobLongTitle).length = 160 :=
  have hgt : 160 < (metaRaw jobLongTitle).length := by decide
  ⟨hgt, ((metaDescription_capped jobLongTitle).2 hgt).1,
    ((metaDescription_capped jobLongTitle).2 hgt).2⟩

/-- **C4** (corrected).  When the ranked keyword list has at least 3
candidates and the cleaned location is non-empty and not among the top 3
terms, `generateFocusKeyphrase` pushes the location and then truncates
back to the first 3 entries of the combined sequence — which are exactly
the top 3 keyword terms, so the appended location is always discarded
and can never displace the third keyword. -/
theorem focusKeyphrase_drops_location (keywords : List KeywordData) (job : Job)
    (hlen : 3 ≤ keywords.length)
    (hne : cleanLocation job ≠ [])
    (hni : cleanLocation job ∉ (keywords.take 3).map (·.term)) :
    generateFocusKeyphrase keywords job =
      joinWith ' ' ((keywords.take 3).map (·.term)) := by
  unfold generateFocusKeyphrase
  have hlen3 : ((keywords.take 3).map (·.term)).length = 3 := by
    rw [List.length_map, List.length_take]
    omega
  simp only [if_pos (And.intro hne hni)]
  rw [List.take_append_eq_append_take, hlen3, List.take_of_length_le (le_of_eq hlen3)]
  simp

/-- Witness for C4: three candidates plus a fresh location. -/
theorem focusKeyphrase_drops_location_witness :
    cleanLocation { title := str "t", description := str "d", location := str "Durban!" } =
      str "durban" ∧
    generateFocusKeyphrase
      [{ term := str "alpha", frequency := 1, relevance := 1 },
       { term := str "beta", frequency := 1, relevance := 1 },
       { term := str "gamma", frequency := 1, relevance := 1 }]
      { title := str "t", description := str "d", location := str "Durban!" } =
      str "alpha beta gamma" :=
  ⟨by decide, by
    have h := focusKeyphrase_drops_location
      [{ term := str "alpha", frequency := 1, relevance := 1 },
       { term := str "beta", frequency := 1, relevance := 1 },
       { term := str "gamma", frequency := 1, relevance := 1 }]
      { title := str "t", description := str "d", location := str "Durban!" }
      (by decide) (by decide) (by decide)
    rw [h]; decide⟩

/-- Counterexample for C4 as stated: at a posting satisfying the claim's
hypotheses, the cleaned location does not occur in the returned phrase
at all — it cannot displace the third keyword. -/
theorem focusKeyphrase_location_never_appears :
    cleanLocation { title := str "t", description := str "d", location := str "Durban!" } =
      str "durban" ∧
    cleanLocation { title := str "t", description := str "d", location := str "Durban!" } ∉
      ([{ term := str "alpha", frequency := 1, relevance := 1 },
        { term := str "beta", frequency := 1, relevance := 1 },
        { term := str "gamma", frequency := 1, relevance := 1 }].take 3).map
        (KeywordData.term) ∧
    generateFocusKeyphrase
      [{ term := str "alpha", frequency := 1, relevance := 1 },
       { term := str "beta", frequency := 1, relevance := 1 },
       { term := str "gamma", frequency := 1, relevance := 1 }]
      { title := str "t", description := str "d", location := str "Durban!" } =
      str "alpha beta gamma" ∧
    ¬ (str "durban" <:+:
        generateFocusKeyphrase
          [{ term := str "alpha", frequency := 1, relevance := 1 },
           { term := str "beta", frequency := 1, relevance := 1 },
           { term := str "gamma", frequency := 1, relevance := 1 }]
          { title := str "t", description := str "d", location := str "Durban!" }) := by
  refine ⟨by decide, by decide, by decide, by decide⟩

/-- **C5** (corrected).  The list items are the trimmed bullet-split
pieces whose length lies in `[11,149]` — the filter is strict at both
ends (`> 10` and `< 150`), so a piece of length exactly 10 is dropped —
capped at 8 items in original order. -/
theorem extractListItems_bounds (sect : JStr) :
    extractListItems sect =
      ((((sect.splitOnP (fun c => c = '-' || c = '•' || c = '·')).map jsTrim).filter
        (fun i => decide (11 ≤ i.length ∧ i.length ≤ 149))).take 8) ∧
    (extractListItems sect).length ≤ 8 := by
  constructor
  · unfold extractListItems
    congr 1
    apply List.filter_congr
    intro a _
    rw [Bool.and_eq_decide]
    exact decide_eq_decide.mpr (by omega)
  · exact List.length_take_le ..

/-- Counterexample for C5 as stated: a single trimmed piece of length
exactly 10 is dropped, not kept. -/
theorem extractListItems_drops_length_ten :
    jsTrim (str "abcdefghij") = str "abcdefghij" ∧
    (str "abcdefghij").length = 10 ∧
    extractListItems (str "abcdefghij") = [] := by
  refine ⟨by decide, by decide, by decide⟩

/-- **C8** (corrected).  If the sectionizer produced no non-empty
section, `restructureContent` returns the normalized body verbatim; and
the result is non-empty whenever the *normalized* body is non-empty (a
non-empty but whitespace-only body normalizes to the empty string, and
then the result is empty). -/
theorem restructure_fallback (job : Job) (s : ContentSections)
    (h : identifyContentSectionsE (normalizeBody job.description) = Except.ok s) :
    (sectionsAllEmpty s → restructureContentE job = Except.ok (normalizeBody job.description)) ∧
    (normalizeBody job.description ≠ [] →
      ∃ r, restructureContentE job = Except.ok r ∧ r ≠ []) := by
  have hr : restructureContentE job =
      Except.ok (if buildStructured s ≠ [] then buildStructured s
                 else normalizeBody job.description) := by
    unfold restructureContentE
    rw [h]
  constructor
  · rintro ⟨h1, h2, h3, h4, h5, h6, h7⟩
    have hb : buildStructured s = [] := by
      unfold buildStructured
      rw [h1, h2, h3, h4, h5, h6, h7]
      simp
    rw [hr, hb]
    simp
  · intro hne
    by_cases hb : buildStructured s = []
    · exact ⟨normalizeBody job.description, by rw [hr, hb]; simp, hne⟩
    · exact ⟨buildStructured s, by rw [hr]; simp [hb], hb⟩

/-- Witness for C8: the body `"duties"` is captured whole by the
responsibilities window, yields no list item, and leaves every section
empty, so the normalized body is returned verbatim. -/
theorem restructure_fallback_witness :
    identifyContentSectionsE (normalizeBody (str "duties")) =
      Except.ok { } ∧
    restructureContentE { title := str "Clerk", description := str "duties" } =
      Except.ok (str "duties") ∧
    normalizeBody (str "duties") = str "duties" := by
  have h := (restructure_fallback { title := str "Clerk", description := str "duties" }
      { } (by rfl)).1 ⟨rfl, rfl, rfl, rfl, rfl, rfl, rfl⟩
  exact ⟨by rfl, by rw [h]; rfl, by decide⟩

/-- Counterexample for C8 as stated: a non-empty, whitespace-only body
yields an empty `optimizedContent`. -/
theorem restructure_empty_output_on_blank_body :
    (str " ") ≠ [] ∧
    restructureContentE { title := str "Clerk", description := str " " } =
      Except.ok [] := by
  refine ⟨by decide, by rfl⟩

/-- **C3** (code bug).  `identifyContentSections` is not total: on the
well-formed body `"contact (0111234567"` the contact scan matches the
whole string, the matched span contains an unbalanced `(`, and the
dynamically constructed removal `RegExp` is invalid — `new RegExp`
throws `SyntaxError`, so `optimize` fails, contradicting the totality
contract.  The embedding signals the throwing construction through
`Except.error`. -/
theorem sectionizer_throws_on_contact_paren :
    contactScan (str "contact (0111234567") = [str "contact (0111234567"] ∧
    parensBalanced (joinWith '|' [str "contact (0111234567"]) = false ∧
    identifyContentSectionsE (str "contact (0111234567") =
      Except.error (str "SyntaxError: invalid dynamically constructed RegExp") ∧
    restructureContentE { title := str "Data Clerk", description := str "contact (0111234567" } =
      Except.error (str "SyntaxError: invalid dynamically constructed RegExp") := by
  refine ⟨by decide, by decide, by rfl, by rfl⟩

/-- **C9** (corrected).  An optional field that is the *empty* string is
treated as absent by every operation: no score bonus, the corresponding
recommendation fires, and the defaults replace it in the meta
description.  (A whitespace-only field, however, is truthy in the source
and treated as present — see the counterexample.) -/
theorem empty_fields_treated_absent (job : Job) (score : Nat) (kws : List KeywordData) :
    (job.company = [] →
      companyBonus job = 0 ∧ recCompany ∈ generateRecommendations job score kws ∧
      metaCompany job = str "Leading company") ∧
    (job.location = [] →
      locationBonus job = 0 ∧ recLocation ∈ generateRecommendations job score kws ∧
      metaLocation job = str "South Africa") ∧
    (job.jobType = [] → jobTypeBonus job = 0 ∧ metaJobType job = str "position") ∧
    (job.category = [] → categoryBonus job = 0) ∧
    (job.salary = [] →
      metaRaw job = str "Join " ++ metaCompany job ++ str " as a " ++ job.title ++
        str " in " ++ metaLocation job ++ str ". " ++
        str "Apply now for this exciting " ++ metaJobType job ++ str " opportunity.") ∧
    (job.focusKeyphrase = [] →
      focusFieldBonus job = 0 ∧ recFocus ∈ generateRecommendations job score kws) ∧
    (job.metaDescription = [] →
      metaFieldBonus job = 0 ∧ recMeta ∈ generateRecommendations job score kws) := by
  refine ⟨fun h => ⟨?_, ?_, ?_⟩, fun h => ⟨?_, ?_, ?_⟩, fun h => ⟨?_, ?_⟩,
    fun h => ?_, fun h => ?_, fun h => ⟨?_, ?_⟩, fun h => ⟨?_, ?_⟩⟩ <;>
    simp [companyBonus, locationBonus, jobTypeBonus, categoryBonus, focusFieldBonus,
      metaFieldBonus, metaCompany, metaLocation, metaJobType, metaRaw,
      generateRecommendations, h]

/-- Witness for C9: a posting whose optional fields are all empty. -/
theorem empty_fields_treated_absent_witness :
    companyBonus { title := str "Clerk", description := str "d" } = 0 ∧
    recCompany ∈ generateRecommendations { title := str "Clerk", description := str "d" } 50 [] ∧
    metaCompany { title := str "Clerk", description := str "d" } = str "Leading company" ∧
    locationBonus { title := str "Clerk", description := str "d" } = 0 ∧
    metaJobType { title := str "Clerk", description := str "d" } = str "position" :=
  have h := empty_fields_treated_absent { title := str "Clerk", description := str "d" } 50 []
  ⟨(h.1 rfl).1, (h.1 rfl).2.1, (h.1 rfl).2.2, (h.2.1 rfl).1, (h.2.2.1 rfl).2⟩

/-- Counterexample for C9 as stated: a whitespace-only company is truthy,
earns the +5 bonus, suppresses the missing-company recommendation, and
appears verbatim in the meta description instead of the default. -/
theorem whitespace_company_treated_present :
    jsTrim (str " ") = [] ∧
    companyBonus { title := str "Clerk", description := str "d", company := str " " } = 5 ∧
    recCompany ∉
      generateRecommendations
        { title := str "Clerk", description := str "d", company := str " " } 50 [] ∧
    metaCompany { title := str "Clerk", description := str "d", company := str " " } =
      str " " := by
  refine ⟨by decide, by decide, by decide, by decide⟩

/-! ### Character-level facts about `Char.toUpper` -/

/-- `Char.ofNat` round-trips on valid BMP code points. -/
theorem char_toNat_ofNat {n : Nat} (h : n < 55296) : (Char.ofNat n).toNat = n := by
  have hv : Nat.isValidChar n := Or.inl h
  simp [Char.ofNat, hv, Char.ofNatAux, Char.toNat, UInt32.toNat]

/-- The code point of `Char.toUpper`: lower-case ASCII letters move down
by 32, everything else is unchanged. -/
theorem toUpper_toNat (c : Char) :
    (Char.toUpper c).toNat =
      if c.toNat ≥ 97 ∧ c.toNat ≤ 122 then c.toNat - 32 else c.toNat := by
  change (if c.toNat ≥ 97 ∧ c.toNat ≤ 122 then Char.ofNat (c.toNat - 32) else c).toNat = _
  by_cases h : c.toNat ≥ 97 ∧ c.toNat ≤ 122
  · rw [if_pos h, if_pos h]
    exact char_toNat_ofNat (by omega)
  · rw [if_neg h, if_neg h]

/-- Outside the lower-case ASCII range, `Char.toUpper` is the identity. -/
theorem toUpper_eq_self {c : Char} (h : ¬(c.toNat ≥ 97 ∧ c.toNat ≤ 122)) :
    Char.toUpper c = c := by
  change (if c.toNat ≥ 97 ∧ c.toNat ≤ 122 then Char.ofNat (c.toNat - 32) else c) = c
  rw [if_neg h]

/-- Upper-casing cannot produce or consume a hyphen. -/
theorem toUpper_eq_hyphen_iff (c : Char) : (Char.toUpper c = '-') ↔ (c = '-') := by
  constructor
  · intro h
    by_cases hl : c.toNat ≥ 97 ∧ c.toNat ≤ 122
    · exfalso
      have hn := congrArg Char.toNat h
      rw [toUpper_toNat, if_pos hl] at hn
      have h45 : ('-').toNat = 45 := rfl
      rw [h45] at hn
      omega
    · rwa [toUpper_eq_self hl] at h
  · rintro rfl
    decide

/-! ### Hyphen-count preservation through the title pipeline (C10) -/

/-- Counting through a character map whose fibre over `a` is `{a}`. -/
theorem count_map_fix (f : Char → Char) (a : Char)
    (hf : ∀ c, (f c = a) ↔ (c = a)) (s : JStr) :
    (s.map f).count a = s.count a := by
  induction s with
  | nil => rfl
  | cons c cs ih =>
    simp only [List.map_cons, List.count_cons, ih]
    congr 1
    by_cases hc : c = a
    · subst hc
      rw [(hf c).mpr rfl]
    · have hfc : f c ≠ a := fun h => hc ((hf c).mp h)
      simp [hc, hfc]

/-- `stripPunct` preserves the number of hyphens (the punctuation class
does not contain `-`, and punctuation becomes spaces). -/
theorem stripPunct_count_hyphen (s : JStr) :
    (stripPunct s).count '-' = s.count '-' := by
  apply count_map_fix
  intro c
  constructor
  · intro h
    by_cases hc : c ∈ punctList
    · rw [if_pos hc] at h
      exact absurd h (by decide)
    · rwa [if_neg hc] at h
  · rintro rfl
    rw [if_neg (by decide)]

/-- Whitespace collapsing preserves the count of any non-whitespace
character: it only deletes whitespace and emits spaces. -/
theorem collapseWsGo_count (a : Char) (hna : isJsWs a = false) :
    ∀ (p : Bool) (s : JStr), (collapseWsGo p s).count a = s.count a := by
  intro p s
  induction s generalizing p with
  | nil => rfl
  | cons c cs ih =>
    by_cases hc : isJsWs c = true
    · have hca : (c == a) = false := by
        simp only [beq_eq_false_iff_ne, ne_eq]
        rintro rfl
        rw [hc] at hna
        cases hna
      have hsa : ((' ' : Char) == a) = false := by
        simp only [beq_eq_false_iff_ne, ne_eq]
        rintro rfl
        cases hna
      simp only [collapseWsGo, if_pos hc, List.count_append, List.count_cons, ih,
        List.count_nil, hca, if_false]
      cases p <;> simp [List.count_cons, hsa]
    · simp only [collapseWsGo, if_neg hc, List.count_cons, ih]

/-- Dropping a whitespace run preserves the count of a non-whitespace
character. -/
theorem dropWhileWs_count (a : Char) (hna : isJsWs a = false) (s : JStr) :
    (s.dropWhile isJsWs).count a = s.count a := by
  induction s with
  | nil => rfl
  | cons c cs ih =>
    by_cases hc : isJsWs c = true
    · have hca : (c == a) = false := by
        simp only [beq_eq_false_iff_ne, ne_eq]
        rintro rfl
        rw [hc] at hna
        cases hna
      rw [List.dropWhile_cons, if_pos hc, ih, List.count_cons, hca]
      simp
    · rw [List.dropWhile_cons, if_neg hc]

/-- `jsTrim` preserves the count of a non-whitespace character. -/
theorem jsTrim_count (a : Char) (hna : isJsWs a = false) (s : JStr) :
    (jsTrim s).count a = s.count a := by
  unfold jsTrim
  rw [List.count_reverse, dropWhileWs_count a hna, List.count_reverse,
    dropWhileWs_count a hna]

/-- Word-start capitalization preserves the number of hyphens. -/
theorem capWords_count_hyphen : ∀ (p : Bool) (s : JStr),
    (capWords p s).count '-' = s.count '-' := by
  intro p s
  induction s generalizing p with
  | nil => rfl
  | cons c cs ih =>
    simp only [capWords, List.count_cons, ih]
    congr 1
    by_cases hb : (isWordChar c && !p) = true
    · rw [if_pos hb]
      by_cases hc : c = '-'
      · simp [hc, (toUpper_eq_hyphen_iff c).mpr hc]
      · have hne : Char.toUpper c ≠ '-' := fun h => hc ((toUpper_eq_hyphen_iff c).mp h)
        simp [hc, hne]
    · rw [if_neg hb]

/-- **C10** (confirmed).  The punctuation set replaced with spaces by
`optimizeTitle` excludes `-`, and no stage of the pipeline removes or
replaces a hyphen: every `-` of the input is preserved in the output
(the output may add one more via the `" - South Africa"` suffix), which
keeps an appended locality suffix intact across normalization. -/
theorem optimizeTitle_preserves_hyphens :
    ('-' ∉ punctList) ∧
    ∀ title : JStr, title.count '-' ≤ (optimizeTitle title).count '-' := by
  refine ⟨by decide, fun t => ?_⟩
  have hcore : (titleCore t).count '-' = t.count '-' := by
    unfold titleCore collapseWs
    rw [capWords_count_hyphen, jsTrim_count '-' (by decide),
      collapseWsGo_count '-' (by decide), stripPunct_count_hyphen]
  unfold optimizeTitle
  by_cases h : hasLocalityMarker (titleCore t) = true
  · rw [if_pos h, hcore]
  · rw [if_neg h, List.count_append, hcore]
    omega

/-! ### Stability of the keyword ranking (C6) -/

theorem insertDesc_perm (x : KeywordData) (s : List KeywordData) :
    List.Perm (insertDesc x s) (x :: s) := by
  induction s with
  | nil => exact List.Perm.refl _
  | cons y ys ih =>
    unfold insertDesc
    by_cases h : sortKey y ≤ sortKey x
    · rw [if_pos h]
    · rw [if_neg h]
      exact (ih.cons y).trans (List.Perm.swap x y ys)

theorem sortDesc_perm (l : List KeywordData) : List.Perm (sortDesc l) l := by
  induction l with
  | nil => exact List.Perm.refl _
  | cons x xs ih => exact (insertDesc_perm x (sortDesc xs)).trans (ih.cons x)

theorem insertDesc_filter_eq {x : KeywordData} {k : Nat} (hx : sortKey x = k)
    (s : List KeywordData) :
    (insertDesc x s).filter (fun e => decide (sortKey e = k)) =
      x :: s.filter (fun e => decide (sortKey e = k)) := by
  induction s with
  | nil => simp [insertDesc, hx]
  | cons y ys ih =>
    unfold insertDesc
    by_cases h : sortKey y ≤ sortKey x
    · rw [if_pos h, List.filter_cons, if_pos (by simpa using hx)]
    · rw [if_neg h]
      have hy : ¬(sortKey y = k) := by omega
      rw [List.filter_cons, if_neg (by simpa using hy), ih,
        List.filter_cons, if_neg (by simpa using hy)]

theorem insertDesc_filter_ne {x : KeywordData} {k : Nat} (hx : ¬(sortKey x = k))
    (s : List KeywordData) :
    (insertDesc x s).filter (fun e => decide (sortKey e = k)) =
      s.filter (fun e => decide (sortKey e = k)) := by
  induction s with
  | nil => simp [insertDesc, hx]
  | cons y ys ih =>
    unfold insertDesc
    by_cases h : sortKey y ≤ sortKey x
    · rw [if_pos h, List.filter_cons, if_neg (by simpa using hx)]
    · rw [if_neg h, List.filter_cons, ih, List.filter_cons]

/-- The sort of `extractKeywords` is stable: filtering the sorted list
at any key value recovers the pre-sort sequence of entries having that
key, in their original order. -/
theorem sortDesc_filter (l : List KeywordData) (k : Nat) :
    (sortDesc l).filter (fun e => decide (sortKey e = k)) =
      l.filter (fun e => decide (sortKey e = k)) := by
  induction l with
  | nil => rfl
  | cons x xs ih =>
    show (insertDesc x (sortDesc xs)).filter _ = _
    by_cases hx : sortKey x = k
    · rw [insertDesc_filter_eq hx, ih, List.filter_cons, if_pos (by simpa using hx)]
    · rw [insertDesc_filter_ne hx, ih, List.filter_cons, if_neg (by simpa using hx)]

/-- A two-element sublist of a duplicate-free list survives `take` as
soon as its second element survives. -/
theorem pair_sublist_take {α : Type} {a b : α} :
    ∀ {l : List α} {n : Nat}, l.Nodup → [a, b].Sublist l → b ∈ l.take n →
      [a, b].Sublist (l.take n) := by
  intro l
  induction l with
  | nil => intro n _ hsub _; simp at hsub
  | cons x xs ih =>
    intro n nd hsub hmem
    match n with
    | 0 => simp at hmem
    | m + 1 =>
      rw [List.take_succ_cons] at hmem ⊢
      cases hsub with
      | cons _ h' =>
        have hbxs : b ∈ xs := h'.subset (by simp)
        have hbx : b ≠ x := fun he => (List.nodup_cons.mp nd).1 (he ▸ hbxs)
        have hbm : b ∈ xs.take m := by
          rcases List.mem_cons.mp hmem with he | hm
          · exact absurd he hbx
          · exact hm
        exact (ih (List.nodup_cons.mp nd).2 h' hbm).cons x
      | cons₂ _ h' =>
        have hbxs : b ∈ xs := h'.subset (by simp)
        have hbx : b ≠ a := fun he => (List.nodup_cons.mp nd).1 (he ▸ hbxs)
        have hbm : b ∈ xs.take m := by
          rcases List.mem_cons.mp hmem with he | hm
          · exact absurd he hbx
          · exact hm
        exact (List.singleton_sublist.mpr hbm).cons₂ a

/-- The keys of a frequency bump: unchanged for an existing key, the new
key appended otherwise. -/
theorem bump_keys (l : List (JStr × Nat)) (w : JStr) :
    (bump l w).map Prod.fst =
      if w ∈ l.map Prod.fst then l.map Prod.fst else l.map Prod.fst ++ [w] := by
  induction l with
  | nil => simp [bump]
  | cons p rest ih =>
    obtain ⟨k, n⟩ := p
    unfold bump
    by_cases h : k = w
    · subst h
      simp
    · rw [if_neg h]
      simp only [List.map_cons]
      rw [ih]
      by_cases hw : w ∈ rest.map Prod.fst
      · rw [if_pos hw, if_pos (List.mem_cons.mpr (Or.inr hw))]
      · rw [if_neg hw, if_neg (by
          intro hc
          rcases List.mem_cons.mp hc with he | hm
          · exact h he.symm
          · exact hw hm)]
        simp

theorem foldl_bump_keys_nodup (ws : List JStr) :
    ∀ acc : List (JStr × Nat), (acc.map Prod.fst).Nodup →
      ((ws.foldl bump acc).map Prod.fst).Nodup := by
  induction ws with
  | nil => intro acc h; exact h
  | cons w ws ih =>
    intro acc h
    rw [List.foldl_cons]
    apply ih
    rw [bump_keys]
    by_cases hw : w ∈ acc.map Prod.fst
    · rwa [if_pos hw]
    · rw [if_neg hw]
      simp only [List.nodup_append, List.nodup_cons, List.nodup_nil]
      exact ⟨h, by simp, by simpa using hw⟩

theorem freqList_keys_nodup (ws : List JStr) :
    ((freqList ws).map Prod.fst).Nodup :=
  foldl_bump_keys_nodup ws [] (by simp)

theorem insertAscIdx_perm (x : JStr × Nat) (s : List (JStr × Nat)) :
    List.Perm (insertAscIdx x s) (x :: s) := by
  induction s with
  | nil => exact List.Perm.refl _
  | cons y ys ih =>
    unfold insertAscIdx
    by_cases h : natOfDigits x.1 < natOfDigits y.1
    · rw [if_pos h]
    · rw [if_neg h]
      exact (ih.cons y).trans (List.Perm.swap x y ys)

theorem jsEntries_perm (l : List (JStr × Nat)) : List.Perm (jsEntries l) l := by
  unfold jsEntries
  have hs : List.Perm ((l.filter (fun e => isArrayIndex e.1)).foldr insertAscIdx [])
      (l.filter (fun e => isArrayIndex e.1)) := by
    induction l.filter (fun e => isArrayIndex e.1) with
    | nil => exact List.Perm.refl _
    | cons x xs ih => exact (insertAscIdx_perm x _).trans (ih.cons x)
  exact (hs.append_right _).trans (List.filter_append_perm _ l)

theorem entriesList_nodup (content : JStr) : (entriesList content).Nodup := by
  apply List.Nodup.of_map KeywordData.term
  have hterms : (entriesList content).map KeywordData.term =
      (jsEntries (freqList (wordsOf content))).map Prod.fst := by
    unfold entriesList
    rw [List.map_map]
    rfl
  rw [hterms]
  exact ((jsEntries_perm (freqList (wordsOf content))).map Prod.fst).nodup_iff.mpr
    (freqList_keys_nodup (wordsOf content))

/-- **C6** (corrected).  The ranking of `extractKeywords` is stable with
respect to the `Object.entries` enumeration of the frequency record
(array-index-like keys hoisted first in ascending numeric order, then
the remaining keys in first-occurrence order): for two retained entries
with equal `frequency × relevance` key, the one earlier in the entries
order ranks first.  First-occurrence order alone is *not* respected —
see the counterexample, where a numeric token is hoisted. -/
theorem keyword_tiebreak_entries_order (content : JStr) (e1 e2 : KeywordData)
    (horder : [e1, e2].Sublist (entriesList content))
    (hkey : sortKey e1 = sortKey e2)
    (hmem : e2 ∈ extractKeywords content) :
    [e1, e2].Sublist (extractKeywords content) := by
  have hnd : (sortDesc (entriesList content)).Nodup :=
    ((sortDesc_perm _).nodup_iff).mpr (entriesList_nodup content)
  have hpair : [e1, e2].Sublist (sortDesc (entriesList content)) := by
    have hfil : [e1, e2].filter (fun e => decide (sortKey e = sortKey e2)) = [e1, e2] := by
      simp [List.filter_cons, hkey]
    have h1 : [e1, e2].Sublist
        ((entriesList content).filter (fun e => decide (sortKey e = sortKey e2))) := by
      have h2 := horder.filter (fun e => decide (sortKey e = sortKey e2))
      rwa [hfil] at h2
    rw [← sortDesc_filter] at h1
    exact h1.trans (List.filter_sublist _)
  unfold extractKeywords at hmem ⊢
  exact pair_sublist_take hnd hpair hmem

/-- Witness for C6: two non-numeric terms with equal keys keep their
first-occurrence order. -/
theorem keyword_tiebreak_entries_order_witness :
    [({ term := str "zebra", frequency := 2, relevance := 1 } : KeywordData),
     { term := str "yacht", frequency := 2, relevance := 1 }].Sublist
      (entriesList (str "zebra yacht zebra yacht")) ∧
    sortKey { term := str "zebra", frequency := 2, relevance := 1 } =
      sortKey { term := str "yacht", frequency := 2, relevance := 1 } ∧
    ({ term := str "yacht", frequency := 2, relevance := 1 } : KeywordData) ∈
      extractKeywords (str "zebra yacht zebra yacht") ∧
    [({ term := str "zebra", frequency := 2, relevance := 1 } : KeywordData),
     { term := str "yacht", frequency := 2, relevance := 1 }].Sublist
      (extractKeywords (str "zebra yacht zebra yacht")) :=
  ⟨by decide, by decide, by decide,
   keyword_tiebreak_entries_order _ _ _ (by decide) (by decide) (by decide)⟩

/-- Counterexample for C6 as stated: `"zebra"` occurs before `"999"` in
the corpus, both retained terms have the same `frequency × relevance`,
yet `"999"` ranks first because `Object.entries` hoists array-index-like
keys ahead of insertion order. -/
theorem keyword_numeric_token_hoisted :
    wordsOf (str "zebra 999") = [str "zebra", str "999"] ∧
    sortKey { term := str "zebra", frequency := 1, relevance := 1 } =
      sortKey { term := str "999", frequency := 1, relevance := 1 } ∧
    extractKeywords (str "zebra 999") =
      [{ term := str "999", frequency := 1, relevance := 1 },
       { term := str "zebra", frequency := 1, relevance := 1 }] := by
  refine ⟨by decide, by decide, by decide⟩

/-! ### Idempotence of the title normalizer (C7): character facts -/

theorem toUpper_toUpper (c : Char) :
    Char.toUpper (Char.toUpper c) = Char.toUpper c := by
  by_cases h : c.toNat ≥ 97 ∧ c.toNat ≤ 122
  · apply toUpper_eq_self
    rw [toUpper_toNat, if_pos h]
    omega
  · rw [toUpper_eq_self h, toUpper_eq_self h]

theorem isWordChar_toUpper (c : Char) :
    isWordChar (Char.toUpper c) = isWordChar c := by
  unfold isWordChar
  rw [toUpper_toNat]
  by_cases h : c.toNat ≥ 97 ∧ c.toNat ≤ 122
  · rw [if_pos h]
    rw [Bool.eq_iff_iff]
    simp only [Bool.or_eq_true, Bool.and_eq_true, decide_eq_true_eq]
    omega
  · rw [if_neg h]

theorem isJsWs_toUpper (c : Char) :
    isJsWs (Char.toUpper c) = isJsWs c := by
  unfold isJsWs
  rw [toUpper_toNat]
  by_cases h : c.toNat ≥ 97 ∧ c.toNat ≤ 122
  · rw [if_pos h]
    rw [Bool.eq_iff_iff]
    simp only [Bool.or_eq_true, Bool.and_eq_true, decide_eq_true_eq]
    omega
  · rw [if_neg h]

theorem toUpper_not_punct {c : Char} (hc : c ∉ punctList) :
    Char.toUpper c ∉ punctList := by
  intro hmem
  by_cases h : c.toNat ≥ 97 ∧ c.toNat ≤ 122
  · have hrange : (Char.toUpper c).toNat ≥ 65 ∧ (Char.toUpper c).toNat ≤ 90 := by
      rw [toUpper_toNat, if_pos h]
      omega
    have hnone : ∀ p ∈ punctList, ¬(p.toNat ≥ 65 ∧ p.toNat ≤ 90) := by decide
    exact hnone _ hmem hrange
  · rw [toUpper_eq_self h] at hmem
    exact hc hmem

/-! ### Idempotence of the title normalizer (C7): whitespace collapse -/

theorem collapseWsGo_mem {c' : Char} :
    ∀ (p : Bool) (s : JStr), c' ∈ collapseWsGo p s → c' = ' ' ∨ c' ∈ s := by
  intro p s
  induction s generalizing p with
  | nil => intro h; simp [collapseWsGo] at h
  | cons c cs ih =>
    intro h
    by_cases hc : isJsWs c = true
    · rw [collapseWsGo, if_pos hc] at h
      rcases List.mem_append.mp h with h1 | h2
      · left
        cases p <;> simpa using h1
      · rcases ih true h2 with h3 | h3
        · exact Or.inl h3
        · exact Or.inr (List.mem_cons.mpr (Or.inr h3))
    · rw [collapseWsGo, if_neg hc] at h
      rcases List.mem_cons.mp h with h1 | h2
      · exact Or.inr (List.mem_cons.mpr (Or.inl h1))
      · rcases ih false h2 with h3 | h3
        · exact Or.inl h3
        · exact Or.inr (List.mem_cons.mpr (Or.inr h3))

theorem collapseWsGo_ws_char {c' : Char} :
    ∀ (p : Bool) (s : JStr), c' ∈ collapseWsGo p s → isJsWs c' = true → c' = ' ' := by
  intro p s
  induction s generalizing p with
  | nil => intro h; simp [collapseWsGo] at h
  | cons c cs ih =>
    intro h hws
    by_cases hc : isJsWs c = true
    · rw [collapseWsGo, if_pos hc] at h
      rcases List.mem_append.mp h with h1 | h2
      · cases p <;> simpa using h1
      · exact ih true h2 hws
    · rw [collapseWsGo, if_neg hc] at h
      rcases List.mem_cons.mp h with h1 | h2
      · subst h1
        exact absurd hws hc
      · exact ih false h2 hws

/-- The head of a collapse started in the inside-a-run state is never
whitespace (leading whitespace of the run was already emitted). -/
theorem collapseWsGo_true_head {d : Char} :
    ∀ s : JStr, (collapseWsGo true s).head? = some d → isJsWs d = false := by
  intro s
  induction s with
  | nil => intro h; simp [collapseWsGo] at h
  | cons c cs ih =>
    intro h
    by_cases hc : isJsWs c = true
    · rw [collapseWsGo, if_pos hc] at h
      exact ih (by simpa using h)
    · rw [collapseWsGo, if_neg hc] at h
      simp only [List.head?_cons, Option.some.injEq] at h
      subst h
      simpa using hc

theorem collapseWsGo_chain : ∀ (p : Bool) (s : JStr),
    List.Chain' noWs2 (collapseWsGo p s) := by
  intro p s
  induction s generalizing p with
  | nil => simp [collapseWsGo]
  | cons c cs ih =>
    by_cases hc : isJsWs c = true
    · rw [collapseWsGo, if_pos hc]
      cases p
      · simp only [Bool.false_eq_true, if_false, List.singleton_append]
        rw [List.chain'_cons']
        refine ⟨fun y hy => ?_, ih true⟩
        intro ⟨_, hyws⟩
        rw [collapseWsGo_true_head cs hy] at hyws
        cases hyws
      · simpa using ih true
    · rw [collapseWsGo, if_neg hc]
      rw [List.chain'_cons']
      refine ⟨fun y _ => ?_, ih false⟩
      intro ⟨hcws, _⟩
      exact hc hcws

/-- The output of `collapseWs` is in whitespace normal form. -/
theorem collapseWs_wsNormal (s : JStr) : wsNormal (collapseWs s) :=
  ⟨fun _ hc hws => collapseWsGo_ws_char false s hc hws, collapseWsGo_chain false s⟩

/-- Strings in whitespace normal form are fixed by `collapseWs` (with
the run-state variant needed for the induction). -/
theorem collapseWsGo_fixed : ∀ s : JStr,
    (∀ c ∈ s, isJsWs c = true → c = ' ') → List.Chain' noWs2 s →
    (collapseWsGo false s = s ∧
      ((∀ d, s.head? = some d → isJsWs d = false) → collapseWsGo true s = s)) := by
  intro s
  induction s with
  | nil => exact fun _ _ => ⟨rfl, fun _ => rfl⟩
  | cons c cs ih =>
    intro hmem hch
    have hmemcs : ∀ x ∈ cs, isJsWs x = true → x = ' ' :=
      fun x hx => hmem x (List.mem_cons.mpr (Or.inr hx))
    have hchcs : List.Chain' noWs2 cs := (List.chain'_cons'.mp hch).2
    obtain ⟨ihF, ihT⟩ := ih hmemcs hchcs
    by_cases hc : isJsWs c = true
    · have hcsp : c = ' ' := hmem c (List.mem_cons.mpr (Or.inl rfl)) hc
      have hheads : ∀ d, cs.head? = some d → isJsWs d = false := by
        intro d hd
        have := (List.chain'_cons'.mp hch).1 d hd
        unfold noWs2 at this
        by_cases hdws : isJsWs d = true
        · exact absurd ⟨hc, hdws⟩ this
        · simpa using hdws
      constructor
      · rw [collapseWsGo, if_pos hc, ihT hheads]
        rw [hcsp]
        rfl
      · intro hhead
        have := hhead c rfl
        rw [hc] at this
        cases this
    · constructor
      · rw [collapseWsGo, if_neg hc, ihF]
      · intro _
        rw [collapseWsGo, if_neg hc, ihF]

theorem collapseWs_fixed {s : JStr} (h : wsNormal s) : collapseWs s = s :=
  (collapseWsGo_fixed s h.1 h.2).1

/-! ### Idempotence of the title normalizer (C7): trimming -/

theorem head?_dropWhile_ws {d : Char} (s : JStr)
    (h : (s.dropWhile isJsWs).head? = some d) : isJsWs d = false := by
  induction s with
  | nil => simp at h
  | cons c cs ih =>
    by_cases hc : isJsWs c = true
    · rw [List.dropWhile_cons, if_pos hc] at h
      exact ih h
    · rw [List.dropWhile_cons, if_neg hc] at h
      simp only [List.head?_cons, Option.some.injEq] at h
      subst h
      simpa using hc

theorem jsTrim_within (s : JStr) : jsTrim s <:+: s := by
  obtain ⟨t, ht⟩ := List.dropWhile_suffix (l := (s.dropWhile isJsWs).reverse) isJsWs
  obtain ⟨pre, hpre⟩ := List.dropWhile_suffix (l := s) isJsWs
  have hu : s.dropWhile isJsWs = jsTrim s ++ t.reverse := by
    unfold jsTrim
    have h2 := congrArg List.reverse ht
    rw [List.reverse_append, List.reverse_reverse] at h2
    exact h2.symm
  refine ⟨pre, t.reverse, ?_⟩
  conv_rhs => rw [← hpre, hu]
  simp [List.append_assoc]

theorem jsTrim_head_ws {d : Char} (s : JStr) (h : (jsTrim s).head? = some d) :
    isJsWs d = false := by
  unfold jsTrim at h
  rw [List.head?_reverse] at h
  obtain ⟨t, ht⟩ := List.dropWhile_suffix (l := (s.dropWhile isJsWs).reverse) isJsWs
  have hu : ((s.dropWhile isJsWs).reverse).getLast? = some d := by
    rw [← ht, List.getLast?_append, h]
    rfl
  rw [List.getLast?_reverse] at hu
  exact head?_dropWhile_ws s hu

theorem jsTrim_last_ws {d : Char} (s : JStr) (h : (jsTrim s).getLast? = some d) :
    isJsWs d = false := by
  unfold jsTrim at h
  rw [List.getLast?_reverse] at h
  exact head?_dropWhile_ws _ h

theorem dropWhile_ws_eq_self {s : JStr}
    (h : ∀ d, s.head? = some d → isJsWs d = false) : s.dropWhile isJsWs = s := by
  cases s with
  | nil => rfl
  | cons c cs =>
    rw [List.dropWhile_cons, if_neg (by simp [h c rfl])]

theorem jsTrim_fixed {s : JStr}
    (hh : ∀ d, s.head? = some d → isJsWs d = false)
    (hl : ∀ d, s.getLast? = some d → isJsWs d = false) : jsTrim s = s := by
  unfold jsTrim
  rw [dropWhile_ws_eq_self hh]
  rw [dropWhile_ws_eq_self (fun d hd => hl d (by rwa [List.head?_reverse] at hd))]
  exact List.reverse_reverse s

/-! ### Idempotence of the title normalizer (C7): capitalization -/

theorem capWords_eq_nil_iff (p : Bool) (s : JStr) : capWords p s = [] ↔ s = [] := by
  cases s <;> simp [capWords]

theorem mem_capWords {c' : Char} : ∀ (p : Bool) (s : JStr), c' ∈ capWords p s →
    ∃ c ∈ s, c' = c ∨ c' = Char.toUpper c := by
  intro p s
  induction s generalizing p with
  | nil => intro h; simp [capWords] at h
  | cons c cs ih =>
    intro h
    rw [capWords] at h
    rcases List.mem_cons.mp h with h1 | h2
    · refine ⟨c, List.mem_cons.mpr (Or.inl rfl), ?_⟩
      by_cases hb : (isWordChar c && !p) = true
      · rw [if_pos hb] at h1
        exact Or.inr h1
      · rw [if_neg hb] at h1
        exact Or.inl h1
    · obtain ⟨d, hd, hor⟩ := ih (isWordChar c) h2
      exact ⟨d, List.mem_cons.mpr (Or.inr hd), hor⟩

theorem capWords_head_ws {d' : Char} (p : Bool) (s : JStr)
    (h : (capWords p s).head? = some d') :
    ∃ d, s.head? = some d ∧ isJsWs d' = isJsWs d := by
  cases s with
  | nil => simp [capWords] at h
  | cons c cs =>
    rw [capWords] at h
    simp only [List.head?_cons, Option.some.injEq] at h
    subst h
    refine ⟨c, rfl, ?_⟩
    by_cases hb : (isWordChar c && !p) = true
    · rw [if_pos hb]
      exact isJsWs_toUpper c
    · rw [if_neg hb]

theorem capWords_getLast_ws {d' : Char} : ∀ (p : Bool) (s : JStr),
    (capWords p s).getLast? = some d' →
    ∃ d, s.getLast? = some d ∧ (d' = d ∨ d' = Char.toUpper d) := by
  intro p s
  induction s generalizing p with
  | nil => intro h; simp [capWords] at h
  | cons c cs ih =>
    intro h
    cases cs with
    | nil =>
      refine ⟨c, rfl, ?_⟩
      rw [capWords, capWords] at h
      simp only [List.getLast?_singleton, Option.some.injEq] at h
      subst h
      by_cases hb : (isWordChar c && !p) = true
      · rw [if_pos hb]
        exact Or.inr rfl
      · rw [if_neg hb]
        exact Or.inl rfl
    | cons e rest =>
      have hcap : capWords (isWordChar c) (e :: rest) =
          (if isWordChar e && !(isWordChar c) then Char.toUpper e else e) ::
            capWords (isWordChar e) rest := rfl
      rw [capWords, hcap, List.getLast?_cons_cons, ← hcap] at h
      obtain ⟨d, hd, hor⟩ := ih (isWordChar c) h
      refine ⟨d, ?_, hor⟩
      rw [List.getLast?_cons_cons]
      exact hd

theorem capWords_chain : ∀ (p : Bool) (s : JStr), List.Chain' noWs2 s →
    List.Chain' noWs2 (capWords p s) := by
  intro p s
  induction s generalizing p with
  | nil => intro _; simp [capWords]
  | cons c cs ih =>
    intro h
    cases cs with
    | nil => simp [capWords]
    | cons e rest =>
      have hcap : capWords (isWordChar c) (e :: rest) =
          (if isWordChar e && !(isWordChar c) then Char.toUpper e else e) ::
            capWords (isWordChar e) rest := rfl
      rw [capWords, hcap, List.chain'_cons]
      have hwc : isJsWs (if isWordChar c && !p then Char.toUpper c else c) = isJsWs c := by
        by_cases hb : (isWordChar c && !p) = true
        · rw [if_pos hb]
          exact isJsWs_toUpper c
        · rw [if_neg hb]
      have hwe : isJsWs (if isWordChar e && !(isWordChar c) then Char.toUpper e else e) =
          isJsWs e := by
        by_cases hb : (isWordChar e && !(isWordChar c)) = true
        · rw [if_pos hb]
          exact isJsWs_toUpper e
        · rw [if_neg hb]
      constructor
      · have hce : noWs2 c e := (List.chain'_cons.mp h).1
        unfold noWs2 at hce ⊢
        rw [hwc, hwe]
        exact hce
      · rw [← hcap]
        exact ih (isWordChar c) (List.chain'_cons.mp h).2

theorem capWords_append : ∀ (p : Bool) (u v : JStr),
    capWords p (u ++ v) = capWords p u ++ capWords (lastWordState p u) v := by
  intro p u
  induction u generalizing p with
  | nil => intro v; simp [capWords, lastWordState]
  | cons c cs ih =>
    intro v
    have hstate : lastWordState p (c :: cs) = lastWordState (isWordChar c) cs := by
      cases cs with
      | nil => simp [lastWordState]
      | cons e rest =>
        unfold lastWordState
        rw [List.getLast?_cons_cons]
        cases hx : (e :: rest).getLast? with
        | none => simp at hx
        | some x => rfl
    rw [List.cons_append, capWords, capWords, ih (isWordChar c), hstate]
    rfl

theorem capWords_idem : ∀ (p : Bool) (s : JStr),
    capWords p (capWords p s) = capWords p s := by
  intro p s
  induction s generalizing p with
  | nil => rfl
  | cons c cs ih =>
    by_cases hb : (isWordChar c && !p) = true
    · rw [capWords, if_pos hb, capWords]
      have hw : isWordChar (Char.toUpper c) = isWordChar c := isWordChar_toUpper c
      rw [hw, if_pos hb, toUpper_toUpper, ih (isWordChar c)]
    · rw [capWords, if_neg hb, capWords, if_neg hb, ih (isWordChar c)]

theorem capWords_locality_suffix (st : Bool) :
    capWords st (str " - South Africa") = str " - South Africa" := by
  cases st <;> decide

/-! ### Idempotence of the title normalizer (C7): assembly -/

theorem stripPunct_no_punct (t : JStr) : ∀ c' ∈ stripPunct t, c' ∉ punctList := by
  intro c' hc'
  unfold stripPunct at hc'
  obtain ⟨c, _, hfc⟩ := List.mem_map.mp hc'
  by_cases hm : c ∈ punctList
  · rw [if_pos hm] at hfc
    subst hfc
    decide
  · rw [if_neg hm] at hfc
    subst hfc
    exact hm

theorem collapseWs_no_punct {s : JStr} (h : ∀ c ∈ s, c ∉ punctList) :
    ∀ c' ∈ collapseWs s, c' ∉ punctList := by
  intro c' hc'
  rcases collapseWsGo_mem false s hc' with h1 | h1
  · subst h1
    decide
  · exact h c' h1

theorem jsTrim_no_punct {s : JStr} (h : ∀ c ∈ s, c ∉ punctList) :
    ∀ c' ∈ jsTrim s, c' ∉ punctList :=
  fun c' hc' => h c' ((jsTrim_within s).sublist.subset hc')

theorem capWords_no_punct {s : JStr} (p : Bool) (h : ∀ c ∈ s, c ∉ punctList) :
    ∀ c' ∈ capWords p s, c' ∉ punctList := by
  intro c' hc'
  obtain ⟨c, hcmem, hor⟩ := mem_capWords p s hc'
  rcases hor with rfl | rfl
  · exact h _ hcmem
  · exact toUpper_not_punct (h _ hcmem)

theorem stripPunct_fixed {s : JStr} (h : ∀ c ∈ s, c ∉ punctList) :
    stripPunct s = s := by
  induction s with
  | nil => rfl
  | cons c cs ih =>
    unfold stripPunct at *
    rw [List.map_cons, if_neg (h c (List.mem_cons.mpr (Or.inl rfl))),
      ih (fun x hx => h x (List.mem_cons.mpr (Or.inr hx)))]

theorem jsTrim_wsNormal {s : JStr} (h : wsNormal s) : wsNormal (jsTrim s) :=
  ⟨fun c hc hws => h.1 c ((jsTrim_within s).sublist.subset hc) hws,
    List.Chain'.infix h.2 (jsTrim_within s)⟩

theorem capWords_ws_space {s : JStr} (p : Bool)
    (h : ∀ c ∈ s, isJsWs c = true → c = ' ') :
    ∀ c' ∈ capWords p s, isJsWs c' = true → c' = ' ' := by
  intro c' hc' hws
  obtain ⟨c, hcmem, hor⟩ := mem_capWords p s hc'
  rcases hor with rfl | rfl
  · exact h _ hcmem hws
  · rw [isJsWs_toUpper] at hws
    rw [h _ hcmem hws]
    decide

theorem capWords_wsNormal {s : JStr} (h : wsNormal s) : wsNormal (capWords false s) :=
  ⟨capWords_ws_space false h.1, capWords_chain false s h.2⟩

/-- The locality suffix has no two adjacent whitespace characters. -/
theorem chain_noWs2_suffix : List.Chain' noWs2 (str " - South Africa") := by
  show List.Chain' noWs2
    [' ', '-', ' ', 'S', 'o', 'u', 't', 'h', ' ', 'A', 'f', 'r', 'i', 'c', 'a']
  simp only [List.chain'_cons, List.chain'_singleton, noWs2]
  refine ⟨?_, ?_, ?_, ?_, ?_, ?_, ?_, ?_, ?_, ?_, ?_, ?_, ?_, ?_⟩ <;> decide

/-- A string that is punctuation-free, whitespace-normal, trimmed, and
fixed by capitalization, and that contains a locality marker, is a fixed
point of `optimizeTitle`. -/
theorem optimizeTitle_fixed_point (s : JStr)
    (hpf : ∀ c ∈ s, c ∉ punctList) (hwsn : wsNormal s)
    (hh : ∀ d, s.head? = some d → isJsWs d = false)
    (hl : ∀ d, s.getLast? = some d → isJsWs d = false)
    (hcap : capWords false s = s)
    (hm : hasLocalityMarker s = true) :
    optimizeTitle s = s := by
  have hcoreS : titleCore s = s := by
    unfold titleCore
    rw [stripPunct_fixed hpf, collapseWs_fixed hwsn, jsTrim_fixed hh hl, hcap]
  unfold optimizeTitle
  rw [hcoreS, if_pos hm]

/-- **C7** (corrected).  `optimizeTitle` is idempotent on outputs that
contain a locality marker, *provided* the cleaned title core
(punctuation stripped, whitespace collapsed, trimmed) is non-empty.  (A
title whose core is empty yields `" - South Africa"` with a leading
space, which a second pass trims — see the counterexample.) -/
theorem optimizeTitle_idempotent (t : JStr)
    (hcore : jsTrim (collapseWs (stripPunct t)) ≠ [])
    (hmark : hasLocalityMarker (optimizeTitle t) = true) :
    optimizeTitle (optimizeTitle t) = optimizeTitle t := by
  have hpf_core : ∀ c ∈ jsTrim (collapseWs (stripPunct t)), c ∉ punctList :=
    jsTrim_no_punct (collapseWs_no_punct (stripPunct_no_punct t))
  have hwsn_core : wsNormal (jsTrim (collapseWs (stripPunct t))) :=
    jsTrim_wsNormal (collapseWs_wsNormal (stripPunct t))
  have hu : titleCore t = capWords false (jsTrim (collapseWs (stripPunct t))) := rfl
  have hu_ne : titleCore t ≠ [] := by
    rw [hu]
    intro he
    exact hcore ((capWords_eq_nil_iff false _).mp he)
  have hpf_u : ∀ c ∈ titleCore t, c ∉ punctList := by
    rw [hu]
    exact capWords_no_punct false hpf_core
  have hwsn_u : wsNormal (titleCore t) := by
    rw [hu]
    exact capWords_wsNormal hwsn_core
  have hhead_u : ∀ d, (titleCore t).head? = some d → isJsWs d = false := by
    intro d hd
    rw [hu] at hd
    obtain ⟨d0, hd0, heq⟩ := capWords_head_ws false _ hd
    rw [heq]
    exact jsTrim_head_ws _ hd0
  have hlast_u : ∀ d, (titleCore t).getLast? = some d → isJsWs d = false := by
    intro d hd
    rw [hu] at hd
    obtain ⟨d0, hd0, hor⟩ := capWords_getLast_ws false _ hd
    have h0 : isJsWs d0 = false := jsTrim_last_ws _ hd0
    rcases hor with rfl | rfl
    · exact h0
    · rw [isJsWs_toUpper]
      exact h0
  have hcap_u : capWords false (titleCore t) = titleCore t := by
    rw [hu]
    exact capWords_idem false _
  have hs_cases : optimizeTitle t = titleCore t ∨
      optimizeTitle t = titleCore t ++ str " - South Africa" := by
    unfold optimizeTitle
    by_cases hm : hasLocalityMarker (titleCore t) = true
    · rw [if_pos hm]
      exact Or.inl rfl
    · rw [if_neg hm]
      exact Or.inr rfl
  have hws_suf : ∀ c ∈ str " - South Africa", isJsWs c = true → c = ' ' := by decide
  have hpf_suf : ∀ c ∈ str " - South Africa", c ∉ punctList := by decide
  apply optimizeTitle_fixed_point
  · rcases hs_cases with he | he <;> rw [he]
    · exact hpf_u
    · intro c hc
      rcases List.mem_append.mp hc with h1 | h1
      · exact hpf_u c h1
      · exact hpf_suf c h1
  · rcases hs_cases with he | he <;> rw [he]
    · exact hwsn_u
    · constructor
      · intro c hc hws
        rcases List.mem_append.mp hc with h1 | h1
        · exact hwsn_u.1 c h1 hws
        · exact hws_suf c h1 hws
      · rw [List.chain'_append]
        refine ⟨hwsn_u.2, chain_noWs2_suffix, ?_⟩
        intro x hx y hy
        intro ⟨hxws, _⟩
        rw [hlast_u x hx] at hxws
        cases hxws
  · rcases hs_cases with he | he <;> rw [he]
    · exact hhead_u
    · intro d hd
      rw [List.head?_append] at hd
      cases hu0 : (titleCore t).head? with
      | none =>
        exact absurd (List.head?_eq_none_iff.mp hu0) hu_ne
      | some x =>
        rw [hu0] at hd
        simp only [Option.or_some, Option.some.injEq] at hd
        subst hd
        exact hhead_u x hu0
  · rcases hs_cases with he | he <;> rw [he]
    · exact hlast_u
    · intro d hd
      rw [List.getLast?_append] at hd
      have ha : (str " - South Africa").getLast? = some 'a' := rfl
      rw [ha] at hd
      simp only [Option.or_some, Option.some.injEq] at hd
      subst hd
      decide
  · rcases hs_cases with he | he <;> rw [he]
    · exact hcap_u
    · rw [capWords_append, hcap_u, capWords_locality_suffix]
  · exact hmark

/-- Witness for C7: a lower-case title whose core is non-empty and whose
normalized form contains the `"cape town"` marker. -/
theorem optimizeTitle_idempotent_witness :
    jsTrim (collapseWs (stripPunct (str "senior nurse cape town"))) ≠ [] ∧
    hasLocalityMarker (optimizeTitle (str "senior nurse cape town")) = true ∧
    optimizeTitle (optimizeTitle (str "senior nurse cape town")) =
      optimizeTitle (str "senior nurse cape town") :=
  ⟨by decide, by decide,
   optimizeTitle_idempotent (str "senior nurse cape town") (by decide) (by decide)⟩

/-- Counterexample for C7 as stated: the title `"!"` cleans to the empty
core, so the first pass returns `" - South Africa"` (leading space,
containing the `"south africa"` marker), and the second pass trims that
leading space — the two outputs differ. -/
theorem optimizeTitle_not_idempotent_on_empty_core :
    hasLocalityMarker (optimizeTitle (str "!")) = true ∧
    optimizeTitle (str "!") = str " - South Africa" ∧
    optimizeTitle (optimizeTitle (str "!")) = str "- South Africa" ∧
    optimizeTitle (optimizeTitle (str "!")) ≠ optimizeTitle (str "!") := by
  refine ⟨by decide, by decide, by decide, by decide⟩

end Jobtimizer
